import Mathlib

/-!
Verification development for the fragment-aggregation core of `cargo-changelog`.

The shallow embedding below translates the code of
`src/command/release_command.rs` and `src/error.rs` (grouping, sorting,
version extraction from paths, candidate filtering, fail-fast aggregation)
into Lean definitions.  Parts of the repository that the claims need but
whose source files are not available (`fragment.rs`, `config.rs`,
`verify_metadata_command.rs`) are modelled from the specification and marked
as such in their doc comments.  External crates (`semver`, `walkdir`,
`miette`) are modelled by their documented behaviour at the granularity the
embedded code observes.
-/

deriving instance DecidableEq for Except

namespace CargoChangelog

/-! ## Character-list lexicographic order

Rust compares `String`s byte-lexicographically (`Ord for String`).  For the
ASCII strings produced by `semver::Version::to_string` this agrees with
code-point-lexicographic comparison of the character lists, which we define
explicitly so that all orders in this file evaluate by `decide`/`rfl`. -/

/-- Lexicographic strict order on character lists, mirroring Rust's
`Ord for String` (byte order; identical to code-point order on ASCII). -/
def strLt : List Char → List Char → Bool
  | [], [] => false
  | [], _ :: _ => true
  | _ :: _, [] => false
  | a :: as, b :: bs => if a < b then true else if b < a then false else strLt as bs

/-! ## Semantic versions (model of the external `semver` crate) -/

/-- A pre-release identifier: numeric identifiers compare as numbers and
before alphanumeric ones, per semver precedence. -/
inductive PreId where
  | num (n : Nat)
  | alpha (s : String)
deriving DecidableEq, Repr

/-- Model of `semver::Version`: `MAJOR.MINOR.PATCH[-PRE][+BUILD]`. -/
structure SemVer where
  major : Nat
  minor : Nat
  patch : Nat
  pre : List PreId
  build : List String
deriving DecidableEq, Repr

/-- Split a character list at every occurrence of `c`. -/
def splitOnChar (c : Char) : List Char → List (List Char)
  | [] => [[]]
  | x :: xs =>
    let r := splitOnChar c xs
    if x = c then [] :: r
    else
      match r with
      | [] => [[x]]
      | y :: ys => (x :: y) :: ys

/-- Split a character list at the first occurrence of `c`, if any. -/
def splitFirst (c : Char) : List Char → List Char × Option (List Char)
  | [] => ([], none)
  | x :: xs =>
    if x = c then ([], some xs)
    else
      let r := splitFirst c xs
      (x :: r.1, r.2)

/-- Numeric value of a digit list (most significant first). -/
def digitsToNat : List Char → Nat → Nat
  | [], acc => acc
  | c :: cs, acc => digitsToNat cs (acc * 10 + (c.toNat - '0'.toNat))

/-- A numeric semver component: nonempty, all ASCII digits, no leading zero
(except the single digit `0`). -/
def parseNumericComponent (cs : List Char) : Option Nat :=
  match cs with
  | [] => none
  | c :: rest =>
    if cs.all Char.isDigit then
      if c = '0' ∧ rest ≠ [] then none
      else some (digitsToNat cs 0)
    else none

/-- Characters allowed in pre-release and build identifiers. -/
def isIdentChar (c : Char) : Bool := c.isAlphanum || c = '-'

/-- A pre-release identifier: nonempty, alphanumeric/hyphen; all-digit
identifiers are numeric and must not have leading zeros. -/
def parsePreId (cs : List Char) : Option PreId :=
  match cs with
  | [] => none
  | c :: rest =>
    if cs.all Char.isDigit then
      if c = '0' ∧ rest ≠ [] then none
      else some (.num (digitsToNat cs 0))
    else if cs.all isIdentChar then some (.alpha (String.mk cs))
    else none

/-- A build-metadata identifier: nonempty, alphanumeric/hyphen. -/
def parseBuildId (cs : List Char) : Option String :=
  match cs with
  | [] => none
  | _ :: _ => if cs.all isIdentChar then some (String.mk cs) else none

/-- Map an option-producing function over a list, failing if any element
fails. -/
def mapMOpt (f : α → Option β) : List α → Option (List β)
  | [] => some []
  | x :: xs =>
    match f x, mapMOpt f xs with
    | some y, some ys => some (y :: ys)
    | _, _ => none

/-- Model of `semver::Version::parse`: strict `MAJOR.MINOR.PATCH[-PRE][+BUILD]`
per the semver 2.0 grammar the crate implements. -/
def SemVer.parse (s : String) : Option SemVer :=
  let (beforeBuild, buildPart) := splitFirst '+' s.data
  let (core, prePart) := splitFirst '-' beforeBuild
  match splitOnChar '.' core with
  | [a, b, c] =>
    match parseNumericComponent a, parseNumericComponent b, parseNumericComponent c with
    | some major, some minor, some patch =>
      let preIds : Option (List PreId) :=
        match prePart with
        | none => some []
        | some p => mapMOpt parsePreId (splitOnChar '.' p)
      let buildIds : Option (List String) :=
        match buildPart with
        | none => some []
        | some bm => mapMOpt parseBuildId (splitOnChar '.' bm)
      match preIds, buildIds with
      | some pre, some build => some ⟨major, minor, patch, pre, build⟩
      | _, _ => none
    | _, _, _ => none
  | _ => none

/-- Canonical rendering, mirroring `Display for semver::Version`. -/
def SemVer.render (v : SemVer) : String :=
  let preStr :=
    match v.pre with
    | [] => ""
    | ps => "-" ++ String.intercalate "." (ps.map fun p =>
        match p with
        | .num n => Nat.repr n
        | .alpha s => s)
  let buildStr :=
    match v.build with
    | [] => ""
    | bs => "+" ++ String.intercalate "." bs
  Nat.repr v.major ++ "." ++ Nat.repr v.minor ++ "." ++ Nat.repr v.patch ++ preStr ++ buildStr

/-- Strict order on pre-release identifiers (semver precedence): numeric
before alphanumeric, numeric by value, alphanumeric lexically. -/
def PreId.ltb : PreId → PreId → Bool
  | .num a, .num b => decide (a < b)
  | .num _, .alpha _ => true
  | .alpha _, .num _ => false
  | .alpha a, .alpha b => strLt a.data b.data

/-- Lexicographic order on pre-release identifier lists; a strict prefix
compares smaller. -/
def preListLt : List PreId → List PreId → Bool
  | [], [] => false
  | [], _ :: _ => true
  | _ :: _, [] => false
  | a :: as, b :: bs =>
    if PreId.ltb a b then true else if PreId.ltb b a then false else preListLt as bs

/-- Standard semver precedence: compare `major.minor.patch` numerically; a
version with a pre-release precedes the same core without one; pre-release
lists compare lexicographically.  Build metadata is ignored. -/
def SemVer.precLt (a b : SemVer) : Bool :=
  if a.major ≠ b.major then decide (a.major < b.major)
  else if a.minor ≠ b.minor then decide (a.minor < b.minor)
  else if a.patch ≠ b.patch then decide (a.patch < b.patch)
  else
    match a.pre, b.pre with
    | [], [] => false
    | [], _ :: _ => false
    | _ :: _, [] => true
    | p :: ps, q :: qs => preListLt (p :: ps) (q :: qs)

/-! ## Paths and directory entries

A Rust `Path` is a sequence of `Component`s.  A `Normal` component is an
`OsStr`; `to_str` succeeds exactly when the bytes are valid UTF-8, which we
model by `Option String` (`none` = non-UTF-8 bytes). -/

/-- One component of `Path::components()`.  `normal none` models a `Normal`
component whose bytes are not valid UTF-8 (`OsStr::to_str` returns `None`). -/
inductive Component where
  | rootDir
  | curDir
  | parentDir
  | normal (s : Option String)
deriving DecidableEq, Repr

/-- A filesystem path as its component sequence. -/
abbrev FsPath := List Component

/-- File type reported by `walkdir::DirEntry::file_type()`. -/
inductive FileType where
  | file
  | dir
  | symlink
deriving DecidableEq, Repr

/-- Model of `walkdir::DirEntry`: the entry's path and file type. -/
structure DirEntry where
  path : FsPath
  fileType : FileType
deriving DecidableEq, Repr

/-- Model of `walkdir::Error` (opaque payload). -/
structure WalkErr where
  msg : String
deriving DecidableEq, Repr

/-! ## Error types (from `src/error.rs`) -/

/-- `FragmentError` from `src/error.rs`.  Payloads of wrapped external
errors (`std::io::Error`, `toml`, `serde_yaml`) are abstracted to a message;
none of them contains a filesystem path. -/
inductive FragmentError where
  | io
  | expectedSeperator (found : String)
  | headerSeperatorMissing
  | tomlSer (msg : String)
  | tomlDe (msg : String)
  | yaml (msg : String)
  | dataType (exp recv : String)
  | interactive
deriving DecidableEq, Repr

/-- `VersionError` from `src/error.rs`: carries the offending `PathBuf`. -/
inductive VersionError where
  | utf8 (p : FsPath)
deriving DecidableEq, Repr

/-- `VerificationError` from `src/error.rs`: one entry of a verification
report.  `fragmentParsing` pairs the fragment's path with its decode error. -/
inductive VerificationError where
  | version (e : VersionError)
  | fragmentParsing (p : FsPath) (e : FragmentError)
  | walkDir (e : WalkErr)
deriving DecidableEq, Repr

/-- `Error` from `src/error.rs`.  Variants that wrap external library errors
carry no payload here (none of those payloads contains the fragment's path;
in particular `std::io::Error` from `OpenOptions::open` does not record the
opened path). -/
inductive Error where
  | io
  | utf8
  | git
  | toml
  | timeFormat
  | cargo
  | handlebarsTemplate
  | handlebarsRender
  | walkDir (e : WalkErr)
  | noWorkTree
  | configDoesNotExist (p : FsPath)
  | notAFile (p : FsPath)
  | noVersionInCargoToml
  | workspaceVersionsNotEqual
  | editorEnvNotSet
  | envNotUnicode (s : String)
  | fragmentError (e : FragmentError) (p : FsPath)
  | version (e : VersionError)
  | textProvider
  | verification (errs : List VerificationError)
deriving DecidableEq, Repr

/-- A `miette::Report` as the release flow produces it: either a typed
`Error` lifted by `into_diagnostic`, a bare `FragmentError` report returned
by `Fragment::from_reader` (which receives only a reader, never a path), or
the ad-hoc report `miette::miette!("UTF8 Error in path: ...")` built in
`get_version_from_path`, whose message holds the offending component. -/
inductive Diag where
  | err (e : Error)
  | fragment (e : FragmentError)
  | utf8InPath (c : Component)
deriving DecidableEq, Repr

/-- The filesystem path information a surfaced diagnostic contains, per the
`Display`/`Diagnostic` implementations in `src/error.rs`: only
`Error::FragmentError` and `VerificationError::FragmentParsing` attach a
path to a fragment failure. -/
def Diag.pathOf : Diag → Option FsPath
  | .err (.fragmentError _ p) => some p
  | .err (.configDoesNotExist p) => some p
  | .err (.notAFile p) => some p
  | .err (.version (.utf8 p)) => some p
  | _ => none

/-! ## Version extraction (`get_version_from_path`) -/

/-- The `find_map` closure of `get_version_from_path`, fused with the
iteration: for each component in root-to-leaf order, a non-`Normal`
component is skipped; a `Normal` component whose `to_str` fails yields the
ad-hoc UTF-8 diagnostic; otherwise the text is parsed as semver, a failure
skips the component and a success returns the version. -/
def findVersion : List Component → Option (Except Diag SemVer)
  | [] => none
  | c :: rest =>
    match c with
    | .normal s =>
      match s with
      | none => some (.error (.utf8InPath (.normal none)))
      | some str =>
        match SemVer.parse str with
        | none => findVersion rest
        | some v => some (.ok v)
    | _ => findVersion rest

/-- `get_version_from_path` from `src/command/release_command.rs`:
`path.components().find_map(...).transpose()`. -/
def getVersionFromPath (p : FsPath) : Except Diag (Option SemVer) :=
  match findVersion p with
  | none => .ok none
  | some (.ok v) => .ok (some v)
  | some (.error e) => .error e

/-! ## Fragments (data model; `src/fragment.rs` is not available) -/

/-- `FragmentData` (spec §3 `MetadataValue`): the closed value variant a
fragment header may contain. -/
inductive FragmentData where
  | int (n : Int)
  | text (s : String)
  | bool (b : Bool)
  | absent
deriving DecidableEq, Repr

/-- A decoded fragment: schema-less metadata header plus verbatim body
(spec §3).  The header map is modelled as an association list. -/
structure Fragment where
  header : List (String × FragmentData)
  body : String
deriving DecidableEq, Repr

/-- The two header syntaxes, selected by the delimiter marker found. -/
inductive HeaderSyntax where
  | toml
  | yaml
deriving DecidableEq, Repr

/-- The delimiter line for each syntax: `+++` (TOML) and `---` (YAML). -/
def markerLine : HeaderSyntax → List Char
  | .toml => ['+', '+', '+']
  | .yaml => ['-', '-', '-']

/-- Scan the lines after an opening delimiter for the closing delimiter of
the same syntax.  Returns the header lines and the body lines, or the
conflicting/absent text found where the closing delimiter was expected. -/
def findClosing (syn : HeaderSyntax) (acc : List (List Char)) :
    List (List Char) → Except FragmentError (List (List Char) × List (List Char))
  | [] => .error (.expectedSeperator "")
  | l :: rest =>
    if l = markerLine syn then .ok (acc.reverse, rest)
    else if l = markerLine .toml ∨ l = markerLine .yaml then
      .error (.expectedSeperator (String.mk l))
    else findClosing syn (l :: acc) rest

/-- Modelled from the spec: the Header/Body Splitter of §4.1; the function
it embodies lives in `src/fragment.rs`, which is not among the available
sources.  Scans for the first line that is exactly `---` or `+++`; that
marker selects the syntax, and the text up to the second occurrence of the
same marker is the header.  Fails with `HeaderSeperatorMissing` when no
recognized delimiter line exists at all, and with `ExpectedSeperator` when
the matching closing delimiter is missing or a conflicting marker appears
first. -/
def splitHeader :
    List (List Char) → Except FragmentError (HeaderSyntax × List (List Char) × List (List Char))
  | [] => .error .headerSeperatorMissing
  | l :: rest =>
    if l = markerLine .toml then
      (findClosing .toml [] rest).map fun p => (.toml, p.1, p.2)
    else if l = markerLine .yaml then
      (findClosing .yaml [] rest).map fun p => (.yaml, p.1, p.2)
    else splitHeader rest

/-- Trim ASCII whitespace from both ends of a character list (the model of
`str::trim` used by the header decoder). -/
def trimChars (cs : List Char) : List Char :=
  ((cs.dropWhile Char.isWhitespace).reverse.dropWhile Char.isWhitespace).reverse

/-- Join lines with newline characters. -/
def joinLines : List (List Char) → List Char
  | [] => []
  | [l] => l
  | l :: ls => l ++ '\n' :: joinLines ls

/-- Parse the characters of a header value into a `FragmentData`, for the
flat subset of both syntaxes: booleans, integers, quoted or plain text. -/
def parseValue (syn : HeaderSyntax) (cs : List Char) : Option FragmentData :=
  let cs := trimChars cs
  match cs with
  | [] => some .absent
  | _ =>
    if cs = ['t', 'r', 'u', 'e'] then some (.bool true)
    else if cs = ['f', 'a', 'l', 's', 'e'] then some (.bool false)
    else if cs.all Char.isDigit then some (.int (digitsToNat cs 0))
    else
      match cs with
      | '"' :: rest =>
        match rest.reverse with
        | '"' :: mid => some (.text (String.mk mid.reverse))
        | _ => none
      | _ =>
        match syn with
        | .yaml => some (.text (String.mk cs))
        | .toml => none

/-- Modelled from the spec: the Metadata Decoder of §4.2, which lives in
`src/fragment.rs` (not among the available sources).  Decodes the header
lines as a schema-less key/value map — `key = value` under TOML,
`key: value` under YAML — for the flat subset of the two grammars that
fragment headers use, failing with the syntax-specific error kind. -/
def decodeHeader (syn : HeaderSyntax) :
    List (List Char) → Except FragmentError (List (String × FragmentData))
  | [] => .ok []
  | l :: rest =>
    if trimChars l = [] then decodeHeader syn rest
    else
      let sepChar : Char := match syn with | .toml => '=' | .yaml => ':'
      let failure : FragmentError := match syn with
        | .toml => .tomlDe (String.mk l)
        | .yaml => .yaml (String.mk l)
      match splitFirst sepChar l with
      | (_, none) => .error failure
      | (key, some rawVal) =>
        match parseValue syn rawVal with
        | none => .error failure
        | some v =>
          (decodeHeader syn rest).map fun kvs => (String.mk (trimChars key), v) :: kvs

/-- Modelled from the spec: `Fragment::from_reader` (§4.3, in the absent
`src/fragment.rs`) composes the splitter and the decoder and keeps the body
verbatim, returning the first `FragmentError` encountered.  The release and
verification flows observe only its `Result`; no path is available to it. -/
def Fragment.fromReader (content : String) : Except FragmentError Fragment :=
  let lines := splitOnChar '\n' content.data
  match splitHeader lines with
  | .error e => .error e
  | .ok (syn, headerLines, bodyLines) =>
    match decodeHeader syn headerLines with
    | .error e => .error e
    | .ok kvs => .ok ⟨kvs, String.mk (joinLines bodyLines)⟩

/-! ## Configuration and filesystem -/

/-- Modelled from the spec: the `Configuration` of `src/config.rs` (not
among the available sources), restricted to the accessors
`release_command.rs` calls — the fragment directory and the configured
template path.  `load_release_files` consults only `fragment_dir()` (for
the walk root); its filename filter never reads the configuration. -/
structure Configuration where
  fragmentDir : FsPath
  templatePath : FsPath
deriving DecidableEq, Repr

/-- The file contents backing `std::fs::OpenOptions::open` + read: an
association from path to content. -/
abbrev FileSys := List (FsPath × String)

/-- Open-and-read a file; a missing path models an `std::io::Error` (which
carries no path the caller surfaces). -/
def openFile (fs : FileSys) (p : FsPath) : Except Unit String :=
  match fs with
  | [] => .error ()
  | (q, content) :: rest => if q = p then .ok content else openFile rest p

/-! ## Candidate filtering and the release flow (`load_release_files`) -/

/-- True when `de.path().ends_with("template.md")`: Rust `Path::ends_with`
with a single-component needle holds exactly when the path's final
component equals that component. -/
def endsWithTemplateMd (p : FsPath) : Bool :=
  match p.getLast? with
  | some (.normal (some s)) => s = "template.md"
  | _ => false

/-- The first `filter_map` of `load_release_files`: walk errors pass
through; directory and symlink entries are dropped; regular files are kept
unless their path ends with the literal component `template.md`.  The
configuration is in scope in the surrounding function (it seeds the walk
root) but the filter never consults it. -/
def candidateFilter (_config : Configuration) (items : List (Except WalkErr DirEntry)) :
    List (Except WalkErr DirEntry) :=
  items.filterMap fun rde =>
    match rde with
    | .error e => some (.error e)
    | .ok de =>
      if de.fileType = .file then
        if endsWithTemplateMd de.path then none else some (.ok de)
      else none

/-- The second `filter_map` of `load_release_files`, applied to one
candidate: a walk error becomes `Error::WalkDir`; a path with no extractable
version is dropped; otherwise the file is opened (failure: `Error::Io`) and
decoded by `Fragment::from_reader` (failure: its bare report), yielding the
`(version, fragment)` pair on success. -/
def loadOne (fs : FileSys) (rde : Except WalkErr DirEntry) :
    Option (Except Diag (SemVer × Fragment)) :=
  match rde with
  | .error e => some (.error (.err (.walkDir e)))
  | .ok de =>
    match getVersionFromPath de.path with
    | .error d => some (.error d)
    | .ok none => none
    | .ok (some version) =>
      match openFile fs de.path with
      | .error _ => some (.error (.err .io))
      | .ok content =>
        match Fragment.fromReader content with
        | .error fe => some (.error (.fragment fe))
        | .ok fragment => some (.ok (version, fragment))

/-- `load_release_files` from `src/command/release_command.rs`: the walker
output (modelled as the input list, since `walkdir` is external) filtered
by `candidateFilter` and mapped through `loadOne`. -/
def loadReleaseFiles (fs : FileSys) (config : Configuration)
    (items : List (Except WalkErr DirEntry)) : List (Except Diag (SemVer × Fragment)) :=
  (candidateFilter config items).filterMap (loadOne fs)

/-! ## Aggregation (`compute_template_data`) -/

/-- `VersionData` from `src/command/release_command.rs`: one version bucket. -/
structure VersionData where
  version : String
  entries : List Fragment
deriving DecidableEq, Repr

/-- `hm.entry(version).or_insert_with(Vec::new).push(fragment)`: append the
fragment to the existing key's vector, or add a new key.  The association
list records first-insertion order; the Rust `HashMap`'s iteration order is
arbitrary, but the subsequent sort over the distinct keys makes the final
result independent of it. -/
def insertEntry (hm : List (String × List Fragment)) (key : String) (f : Fragment) :
    List (String × List Fragment) :=
  match hm with
  | [] => [(key, [f])]
  | (k, fs) :: rest =>
    if k = key then (k, fs ++ [f]) :: rest else (k, fs) :: insertEntry rest key f

/-- The `for` loop of `compute_template_data`: `let (version, fragment) = r?;`
aborts with the first error; otherwise the fragment is pushed into the
bucket keyed by `version.to_string()`. -/
def buildVersionMap (rs : List (Except Diag (SemVer × Fragment)))
    (hm : List (String × List Fragment)) :
    Except Diag (List (String × List Fragment)) :=
  match rs with
  | [] => .ok hm
  | r :: rest =>
    match r with
    | .error e => .error e
    | .ok (version, fragment) =>
      buildVersionMap rest (insertEntry hm (SemVer.render version) fragment)

/-- Insert a bucket into a list ascending by `va.version.cmp(&vb.version)`
(byte-lexicographic comparison of the version strings). -/
def insertVD (x : VersionData) : List VersionData → List VersionData
  | [] => [x]
  | y :: ys => if strLt y.version.data x.version.data then y :: insertVD x ys else x :: y :: ys

/-- `itertools`' `sorted_by(|va, vb| va.version.cmp(&vb.version))`: a sort
of the buckets ascending by the lexicographic order of their version
strings.  The keys are distinct (they were `HashMap` keys), so the sorted
sequence is the unique ascending arrangement. -/
def sortVD : List VersionData → List VersionData
  | [] => []
  | x :: xs => insertVD x (sortVD xs)

/-- `compute_template_data` from `src/command/release_command.rs`: fold the
results fail-fast into version buckets, sort the buckets by version string,
and wrap them in a map under the single key `"versions"`. -/
def computeTemplateData (rs : List (Except Diag (SemVer × Fragment))) :
    Except Diag (List (String × List VersionData)) :=
  match buildVersionMap rs [] with
  | .error e => .error e
  | .ok hm =>
    let versions := sortVD (hm.map fun p => ⟨p.1, p.2⟩)
    .ok [("versions", versions)]

/-! ## Verification flow -/

/-- Modelled from the spec: the per-candidate check of the Verifier (§4.7);
`src/command/verify_metadata_command.rs` is not among the available sources.
A walk error is recorded as `VerificationError::WalkDir`; a version-
extraction failure as `VerificationError::Version` carrying the path; a
version-less path is skipped (not reported); an open or decode failure is
recorded as `VerificationError::FragmentParsing` pairing the file's path
with its `FragmentError`; a successful decode records nothing. -/
def verifyOne (fs : FileSys) (rde : Except WalkErr DirEntry) : Option VerificationError :=
  match rde with
  | .error e => some (.walkDir e)
  | .ok de =>
    match getVersionFromPath de.path with
    | .error _ => some (.version (.utf8 de.path))
    | .ok none => none
    | .ok (some _) =>
      match openFile fs de.path with
      | .error _ => some (.fragmentParsing de.path .io)
      | .ok content =>
        match Fragment.fromReader content with
        | .error fe => some (.fragmentParsing de.path fe)
        | .ok _ => none

/-- Modelled from the spec: the Verifier's failure collection (§4.7) — the
ordered list of one entry per failing candidate file and per walk error,
over the same candidate set as the release flow. -/
def verifyFailures (fs : FileSys) (config : Configuration)
    (items : List (Except WalkErr DirEntry)) : List VerificationError :=
  (candidateFilter config items).filterMap (verifyOne fs)

/-- Modelled from the spec: the Verifier's result (§4.7 and
`Error::Verification` in `src/error.rs`) — success exactly when the failure
collection is empty, otherwise the single aggregate error carrying the full
list. -/
def verifyMetadata (fs : FileSys) (config : Configuration)
    (items : List (Except WalkErr DirEntry)) : Except Error Unit :=
  match verifyFailures fs config items with
  | [] => .ok ()
  | e :: rest => .error (.verification (e :: rest))

/-! ## Predicates used by the claims -/

/-- A component the `find_map` of `get_version_from_path` passes over
without effect: a non-`Normal` component, or a UTF-8-decodable `Normal`
component whose text does not parse as a semantic version. -/
def skippable (c : Component) : Bool :=
  match c with
  | .normal none => false
  | .normal (some s) => (SemVer.parse s).isNone
  | .rootDir => true
  | .curDir => true
  | .parentDir => true

/-- A component whose text parses as a semantic version. -/
def parsesVersion (c : Component) : Bool :=
  match c with
  | .normal (some s) => (SemVer.parse s).isSome
  | _ => false

/-- The diagnostics a candidate's open-or-decode step can produce in the
release flow: the `Error::Io` from `OpenOptions::open` or the bare
`FragmentError` report from `Fragment::from_reader`. -/
def isDecodeDiag : Diag → Bool
  | .err .io => true
  | .fragment _ => true
  | _ => false

/-- Ascending adjacency order on version buckets: `a` precedes `b` when the
byte-lexicographic comparison does not put `b.version` strictly below
`a.version`.  This is the order `sorted_by(|va, vb| va.version.cmp(&vb.version))`
establishes. -/
def vdLe (a b : VersionData) : Prop := strLt b.version.data a.version.data = false

/-! ## Concrete sample data (used by witnesses and counterexamples) -/

/-- A fragment like the one the repository's own test builds for `0.2.0`. -/
def fragIssue123 : Fragment :=
  ⟨[("issue", .int 123)], "text of fragment for version 0.2.0"⟩

/-- A fragment like the one the repository's own test builds for `0.1.0`. -/
def fragIssue345 : Fragment :=
  ⟨[("issue", .int 345)], "text of fragment for version 0.1.0"⟩

/-- A configuration with the default template path `template.md`. -/
def sampleConfig : Configuration :=
  ⟨[.normal (some "frag")], [.normal (some "template.md")]⟩

/-- A configuration whose template path is NOT `template.md`. -/
def altConfig : Configuration :=
  ⟨[.normal (some "frag")], [.normal (some "tmpl.txt")]⟩

/-- Path of a fragment file inside a version directory. -/
def badFragPath : FsPath :=
  [.normal (some "frag"), .normal (some "1.0.0"), .normal (some "bad.md")]

/-- A filesystem whose single fragment file has undecodable content (no
header delimiter at all). -/
def badFragFs : FileSys := [(badFragPath, "no delimiter here")]

/-- Walk output containing just the undecodable fragment file. -/
def badFragItems : List (Except WalkErr DirEntry) := [.ok ⟨badFragPath, .file⟩]

/-- Path of a file named `template.md` inside a version directory. -/
def versionedTemplatePath : FsPath :=
  [.normal (some "frag"), .normal (some "1.0.0"), .normal (some "template.md")]

/-- Content that decodes successfully as a TOML-headered fragment. -/
def goodContent : String := "+++\nissue = 123\n+++\n\nbody text"

/-- A filesystem whose single file is a valid fragment named `template.md`
inside a version directory. -/
def versionedTemplateFs : FileSys := [(versionedTemplatePath, goodContent)]

/-- Walk output containing just the valid `template.md` fragment file. -/
def versionedTemplateItems : List (Except WalkErr DirEntry) :=
  [.ok ⟨versionedTemplatePath, .file⟩]

/-- A path with no version-like component. -/
def noVersionPath : FsPath :=
  [.rootDir, .normal (some "fragments"), .normal (some "my-change.md")]

/-! ## Helper lemmas: the lexicographic order and insertion sort -/

theorem strLt_asymm : ∀ as bs : List Char, strLt as bs = true → strLt bs as = false := by
  intro as
  induction as with
  | nil =>
    intro bs h
    cases bs with
    | nil => simp [strLt] at h
    | cons b bs => simp [strLt]
  | cons a as ih =>
    intro bs h
    cases bs with
    | nil => simp [strLt] at h
    | cons b bs =>
      simp only [strLt] at h ⊢
      rcases lt_trichotomy a b with hab | hab | hab
      · have hba : ¬ b < a := lt_asymm hab
        simp [hab, hba]
      · subst hab
        simp [lt_irrefl] at h ⊢
        exact ih bs h
      · have hnab : ¬ a < b := lt_asymm hab
        simp [hnab, hab] at h

theorem insertVD_head (x : VersionData) (l : List VersionData) :
    (insertVD x l).head? = some x ∨ (insertVD x l).head? = l.head? := by
  cases l with
  | nil => left; rfl
  | cons y ys =>
    by_cases h : strLt y.version.data x.version.data = true
    · right; simp [insertVD, h]
    · left; simp [insertVD, h]

theorem chain'_insertVD (x : VersionData) :
    ∀ l : List VersionData, List.Chain' vdLe l → List.Chain' vdLe (insertVD x l) := by
  intro l
  induction l with
  | nil => intro _; simp [insertVD]
  | cons y ys ih =>
    intro hc
    rw [List.chain'_cons'] at hc
    by_cases h : strLt y.version.data x.version.data = true
    · have hys := ih hc.2
      have e1 : insertVD x (y :: ys) = y :: insertVD x ys := by
        simp only [insertVD]
        rw [if_pos h]
      rw [e1, List.chain'_cons']
      refine ⟨?_, hys⟩
      intro z hz
      rcases insertVD_head x ys with hh | hh
      · rw [hh] at hz
        simp only [Option.mem_def, Option.some.injEq] at hz
        subst hz
        exact strLt_asymm _ _ h
      · rw [hh] at hz
        exact hc.1 z hz
    · have e2 : insertVD x (y :: ys) = x :: y :: ys := by
        simp only [insertVD]
        rw [if_neg h]
      rw [e2, List.chain'_cons']
      constructor
      · intro z hz
        simp only [List.head?_cons, Option.mem_def, Option.some.injEq] at hz
        subst hz
        unfold vdLe
        simpa using h
      · rw [List.chain'_cons']
        exact ⟨hc.1, hc.2⟩

theorem chain'_sortVD : ∀ l : List VersionData, List.Chain' vdLe (sortVD l) := by
  intro l
  induction l with
  | nil => simp [sortVD]
  | cons x xs ih => exact chain'_insertVD x _ ih

/-! ## Helper lemmas: version extraction -/

theorem findVersion_append_skippable :
    ∀ (qre rest : List Component), (∀ c ∈ qre, skippable c = true) →
      findVersion (qre ++ rest) = findVersion rest := by
  intro qre
  induction qre with
  | nil => intro rest _; rfl
  | cons c cs ih =>
    intro rest h
    have hc := h c (List.mem_cons_self c cs)
    have hcs : ∀ x ∈ cs, skippable x = true := fun x hx => h x (List.mem_cons_of_mem c hx)
    cases c with
    | rootDir => simpa only [List.cons_append, findVersion] using ih rest hcs
    | curDir => simpa only [List.cons_append, findVersion] using ih rest hcs
    | parentDir => simpa only [List.cons_append, findVersion] using ih rest hcs
    | normal s =>
      cases s with
      | none => simp [skippable] at hc
      | some str =>
        have hp : SemVer.parse str = none := by
          simpa [skippable, Option.isNone_iff_eq_none] using hc
        simp only [List.cons_append, findVersion, hp]
        exact ih rest hcs

theorem findVersion_error_decomp :
    ∀ (p : List Component) (e : Diag), findVersion p = some (.error e) →
      ∃ qre qost, p = qre ++ .normal none :: qost ∧ (∀ c ∈ qre, skippable c = true)
        ∧ e = .utf8InPath (.normal none) := by
  intro p
  induction p with
  | nil => intro e h; simp [findVersion] at h
  | cons c cs ih =>
    intro e h
    cases c with
    | rootDir =>
      simp only [findVersion] at h
      obtain ⟨qre, qost, h1, h2, h3⟩ := ih e h
      refine ⟨.rootDir :: qre, qost, by simp [h1], ?_, h3⟩
      intro x hx
      rcases List.mem_cons.mp hx with hx | hx
      · subst hx; rfl
      · exact h2 x hx
    | curDir =>
      simp only [findVersion] at h
      obtain ⟨qre, qost, h1, h2, h3⟩ := ih e h
      refine ⟨.curDir :: qre, qost, by simp [h1], ?_, h3⟩
      intro x hx
      rcases List.mem_cons.mp hx with hx | hx
      · subst hx; rfl
      · exact h2 x hx
    | parentDir =>
      simp only [findVersion] at h
      obtain ⟨qre, qost, h1, h2, h3⟩ := ih e h
      refine ⟨.parentDir :: qre, qost, by simp [h1], ?_, h3⟩
      intro x hx
      rcases List.mem_cons.mp hx with hx | hx
      · subst hx; rfl
      · exact h2 x hx
    | normal s =>
      cases s with
      | none =>
        simp only [findVersion, Option.some.injEq] at h
        refine ⟨[], cs, rfl, by intro x hx; simp at hx, ?_⟩
        cases h
        rfl
      | some str =>
        cases hp : SemVer.parse str with
        | none =>
          simp only [findVersion, hp] at h
          obtain ⟨qre, qost, h1, h2, h3⟩ := ih e h
          refine ⟨.normal (some str) :: qre, qost, by simp [h1], ?_, h3⟩
          intro x hx
          rcases List.mem_cons.mp hx with hx | hx
          · subst hx; simp [skippable, hp]
          · exact h2 x hx
        | some v =>
          simp only [findVersion, hp] at h
          cases h

/-- The positive half shared by several claims: when every component before
some version-parsing component is skippable, `get_version_from_path`
returns that component's version, whatever follows it. -/
theorem gvfp_first_version (qre : List Component) (s : String) (v : SemVer)
    (qost : List Component) (hs : ∀ c ∈ qre, skippable c = true)
    (hp : SemVer.parse s = some v) :
    getVersionFromPath (qre ++ .normal (some s) :: qost) = .ok (some v) := by
  unfold getVersionFromPath
  rw [findVersion_append_skippable qre (.normal (some s) :: qost) hs]
  simp [findVersion, hp]

/-- The negative half shared by several claims: an error from
`get_version_from_path` is the ad-hoc UTF-8 diagnostic, raised at a
non-UTF-8 `Normal` component all of whose predecessors are skippable. -/
theorem gvfp_error_decomp (p : FsPath) (e : Diag)
    (h : getVersionFromPath p = .error e) :
    ∃ qre qost, p = qre ++ .normal none :: qost ∧ (∀ c ∈ qre, skippable c = true)
      ∧ e = .utf8InPath (.normal none) := by
  unfold getVersionFromPath at h
  cases hf : findVersion p with
  | none => rw [hf] at h; cases h
  | some r =>
    cases r with
    | ok v => rw [hf] at h; cases h
    | error d =>
      rw [hf] at h
      cases h
      exact findVersion_error_decomp p _ hf

/-- Skippable components alone yield a successful "no version". -/
theorem gvfp_skippable_none (p : FsPath) (hs : ∀ c ∈ p, skippable c = true) :
    getVersionFromPath p = .ok none := by
  unfold getVersionFromPath
  have : findVersion (p ++ []) = findVersion [] := findVersion_append_skippable p [] hs
  rw [List.append_nil] at this
  rw [this]
  rfl

/-! ## Helper lemmas: candidate filtering and the two flows -/

theorem candidateFilter_append (cfg : Configuration)
    (l₁ l₂ : List (Except WalkErr DirEntry)) :
    candidateFilter cfg (l₁ ++ l₂) = candidateFilter cfg l₁ ++ candidateFilter cfg l₂ := by
  unfold candidateFilter
  exact List.filterMap_append l₁ l₂ _

theorem candidateFilter_cons_template (cfg : Configuration) (de : DirEntry)
    (hf : de.fileType = .file) (ht : endsWithTemplateMd de.path = true)
    (items : List (Except WalkErr DirEntry)) :
    candidateFilter cfg (.ok de :: items) = candidateFilter cfg items := by
  simp [candidateFilter, hf, ht]

theorem candidateFilter_cons_file (cfg : Configuration) (de : DirEntry)
    (hf : de.fileType = .file) (ht : endsWithTemplateMd de.path = false)
    (items : List (Except WalkErr DirEntry)) :
    candidateFilter cfg (.ok de :: items) = .ok de :: candidateFilter cfg items := by
  simp [candidateFilter, hf, ht]

theorem loadReleaseFiles_append (fs : FileSys) (cfg : Configuration)
    (l₁ l₂ : List (Except WalkErr DirEntry)) :
    loadReleaseFiles fs cfg (l₁ ++ l₂) =
      loadReleaseFiles fs cfg l₁ ++ loadReleaseFiles fs cfg l₂ := by
  unfold loadReleaseFiles
  rw [candidateFilter_append]
  exact List.filterMap_append _ _ _

theorem verifyFailures_append (fs : FileSys) (cfg : Configuration)
    (l₁ l₂ : List (Except WalkErr DirEntry)) :
    verifyFailures fs cfg (l₁ ++ l₂) =
      verifyFailures fs cfg l₁ ++ verifyFailures fs cfg l₂ := by
  unfold verifyFailures
  rw [candidateFilter_append]
  exact List.filterMap_append _ _ _

theorem loadOne_noVersion (fs : FileSys) (de : DirEntry)
    (h : getVersionFromPath de.path = .ok none) : loadOne fs (.ok de) = none := by
  simp [loadOne, h]

/-- Every diagnostic the release flow attaches to a failing candidate whose
failure is in the open-or-decode step carries no filesystem path. -/
theorem loadOne_decode_diag_no_path (fs : FileSys) (rde : Except WalkErr DirEntry)
    (d : Diag) (h : loadOne fs rde = some (.error d))
    (hd : isDecodeDiag d = true) : Diag.pathOf d = none := by
  cases rde with
  | error e =>
    simp only [loadOne, Option.some.injEq, Except.error.injEq] at h
    subst h
    rfl
  | ok de =>
    cases hv : getVersionFromPath de.path with
    | error dg =>
      simp only [loadOne, hv, Option.some.injEq, Except.error.injEq] at h
      subst h
      obtain ⟨qre, qost, -, -, he⟩ := gvfp_error_decomp de.path dg hv
      subst he
      rfl
    | ok vo =>
      cases vo with
      | none => simp [loadOne, hv] at h
      | some version =>
        cases ho : openFile fs de.path with
        | error u =>
          simp only [loadOne, hv, ho, Option.some.injEq, Except.error.injEq] at h
          subst h
          rfl
        | ok content =>
          cases hr : Fragment.fromReader content with
          | error fe =>
            simp only [loadOne, hv, ho, hr, Option.some.injEq, Except.error.injEq] at h
            subst h
            rfl
          | ok frag =>
            simp [loadOne, hv, ho, hr] at h

/-- Every decode failure the verifier records pairs the `FragmentError`
with exactly the path of the file that produced it. -/
theorem verifyOne_fragmentParsing_path (fs : FileSys) (rde : Except WalkErr DirEntry)
    (p : FsPath) (fe : FragmentError)
    (h : verifyOne fs rde = some (.fragmentParsing p fe)) :
    ∃ de, rde = .ok de ∧ p = de.path := by
  cases rde with
  | error e =>
    simp only [verifyOne, Option.some.injEq] at h
    cases h
  | ok de =>
    refine ⟨de, rfl, ?_⟩
    cases hv : getVersionFromPath de.path with
    | error dg =>
      simp [verifyOne, hv] at h
    | ok vo =>
      cases vo with
      | none => simp [verifyOne, hv] at h
      | some version =>
        cases ho : openFile fs de.path with
        | error u =>
          simp only [verifyOne, hv, ho, Option.some.injEq,
            VerificationError.fragmentParsing.injEq] at h
          exact h.1.symm
        | ok content =>
          cases hr : Fragment.fromReader content with
          | error fe₂ =>
            simp only [verifyOne, hv, ho, hr, Option.some.injEq,
              VerificationError.fragmentParsing.injEq] at h
            exact h.1.symm
          | ok frag =>
            simp [verifyOne, hv, ho, hr] at h

/-- The aggregation loop returns the first error of its input unchanged. -/
theorem buildVersionMap_first_error :
    ∀ (rs₁ : List (Except Diag (SemVer × Fragment))) (e : Diag)
      (rs₂ : List (Except Diag (SemVer × Fragment)))
      (hm : List (String × List Fragment)),
      (∀ r ∈ rs₁, ∃ q, r = .ok q) →
      buildVersionMap (rs₁ ++ .error e :: rs₂) hm = .error e := by
  intro rs₁
  induction rs₁ with
  | nil => intro e rs₂ hm _; rfl
  | cons r rs ih =>
    intro e rs₂ hm h
    obtain ⟨q, hq⟩ := h r (List.mem_cons_self r rs)
    obtain ⟨version, fragment⟩ := q
    rw [hq]
    simp only [List.cons_append, buildVersionMap]
    exact ih e rs₂ _ (fun x hx => h x (List.mem_cons_of_mem r hx))

/-! ## Claim C1 -/

/-- C1, counterexample: aggregating two successfully decoded fragments for
versions `0.2.0` and `0.10.0` yields buckets ordered `["0.10.0", "0.2.0"]`,
although `0.2.0` strictly precedes `0.10.0` under standard semver
precedence; the order produced is exactly the lexicographic comparison of
the canonical version strings, refuting the claim that buckets are sorted
ascending by the parsed semantic version and not merely by string order. -/
theorem c1_counterexample :
    computeTemplateData
        [.ok (⟨0, 2, 0, [], []⟩, fragIssue123), .ok (⟨0, 10, 0, [], []⟩, fragIssue345)]
      = .ok [("versions", [⟨"0.10.0", [fragIssue345]⟩, ⟨"0.2.0", [fragIssue123]⟩])]
    ∧ SemVer.precLt ⟨0, 2, 0, [], []⟩ ⟨0, 10, 0, [], []⟩ = true
    ∧ SemVer.parse "0.2.0" = some ⟨0, 2, 0, [], []⟩
    ∧ SemVer.parse "0.10.0" = some ⟨0, 10, 0, [], []⟩
    ∧ strLt "0.10.0".data "0.2.0".data = true := by decide

/-- C1, amended: for every collection of successfully decoded
(version, fragment) pairs, `compute_template_data` produces the single key
`"versions"` whose buckets are sorted ascending by byte-lexicographic
comparison of the canonical version strings (`va.version.cmp(&vb.version)`
on Rust `String`s), which coincides with semver precedence only when the
two orders agree. -/
theorem c1_sorted_by_string (rs : List (Except Diag (SemVer × Fragment)))
    (out : List (String × List VersionData))
    (h : computeTemplateData rs = .ok out) :
    ∃ vds, out = [("versions", vds)] ∧ List.Chain' vdLe vds := by
  unfold computeTemplateData at h
  cases hb : buildVersionMap rs [] with
  | error e => rw [hb] at h; cases h
  | ok hm =>
    rw [hb] at h
    simp only [Except.ok.injEq] at h
    exact ⟨_, h.symm, chain'_sortVD _⟩

/-- C1, witness for the amended theorem at a one-element input. -/
theorem c1_sorted_by_string_witness :
    ∃ vds, [("versions", [(⟨"0.1.0", [fragIssue345]⟩ : VersionData)])] = [("versions", vds)]
      ∧ List.Chain' vdLe vds :=
  c1_sorted_by_string [.ok (⟨0, 1, 0, [], []⟩, fragIssue345)]
    [("versions", [⟨"0.1.0", [fragIssue345]⟩])] (by decide)

/-! ## Claim C8 -/

/-- C8: aggregating one fragment for version `0.2.0` followed by one for
`0.1.0`, and the same two in the opposite order, both yield exactly the two
buckets `["0.1.0", "0.2.0"]`. -/
theorem c8_concrete_sorted :
    computeTemplateData
        [.ok (⟨0, 2, 0, [], []⟩, fragIssue123), .ok (⟨0, 1, 0, [], []⟩, fragIssue345)]
      = .ok [("versions", [⟨"0.1.0", [fragIssue345]⟩, ⟨"0.2.0", [fragIssue123]⟩])]
    ∧ computeTemplateData
        [.ok (⟨0, 1, 0, [], []⟩, fragIssue345), .ok (⟨0, 2, 0, [], []⟩, fragIssue123)]
      = .ok [("versions", [⟨"0.1.0", [fragIssue345]⟩, ⟨"0.2.0", [fragIssue123]⟩])] := by
  decide

/-! ## Claim C6 -/

/-- C6, counterexample: the path whose first component is non-UTF-8 and
whose second component parses as the semantic version `1.0.0` makes
`get_version_from_path` fail with the UTF-8 diagnostic instead of returning
the version, refuting the claim that every path containing a
version-parsing component yields that component (with non-parsing
components skipped as ordinary names). -/
theorem c6_counterexample :
    getVersionFromPath [.normal none, .normal (some "1.0.0")]
      = .error (.utf8InPath (.normal none))
    ∧ SemVer.parse "1.0.0" = some ⟨1, 0, 0, [], []⟩ := by decide

/-- C6, amended: for every path containing a version-parsing component all
of whose preceding components are skippable (non-`Normal`, or UTF-8 text
that does not parse as semver), `get_version_from_path` returns the first
such component's version, at whatever depth it occurs and regardless of
what follows — in particular a second version-like component later in the
path is ignored. -/
theorem c6_first_version_component (qre : List Component) (s : String) (v : SemVer)
    (qost : List Component) (hs : ∀ c ∈ qre, skippable c = true)
    (hp : SemVer.parse s = some v) :
    getVersionFromPath (qre ++ .normal (some s) :: qost) = .ok (some v) :=
  gvfp_first_version qre s v qost hs hp

/-- C6, witness: a version at depth three is found first even though a
second version-like component follows it. -/
theorem c6_first_version_component_witness :
    getVersionFromPath ([.normal (some "fragments"), .normal (some "backend")] ++
        .normal (some "1.2.3") :: [.normal (some "2.0.0"), .normal (some "x.md")])
      = .ok (some ⟨1, 2, 3, [], []⟩) :=
  c6_first_version_component [.normal (some "fragments"), .normal (some "backend")] "1.2.3"
    ⟨1, 2, 3, [], []⟩ [.normal (some "2.0.0"), .normal (some "x.md")] (by decide) (by decide)

/-! ## Claim C7 -/

/-- C7: for every path whose components are all valid UTF-8 and none of
which parses as a semantic version, `get_version_from_path` returns a
successful "no version" (`Ok(None)`), and the function fails only when a
non-UTF-8 path component is present. -/
theorem c7_no_version_ok (p : FsPath) :
    ((∀ c ∈ p, c ≠ Component.normal none) → (∀ c ∈ p, parsesVersion c = false) →
      getVersionFromPath p = .ok none)
    ∧ (∀ e, getVersionFromPath p = .error e → ∃ c ∈ p, c = Component.normal none) := by
  constructor
  · intro h1 h2
    apply gvfp_skippable_none
    intro c hc
    cases c with
    | rootDir => rfl
    | curDir => rfl
    | parentDir => rfl
    | normal s =>
      cases s with
      | none => exact absurd rfl (h1 _ hc)
      | some str =>
        have hpv := h2 _ hc
        cases hp : SemVer.parse str with
        | none => simp [skippable, hp]
        | some v => simp [parsesVersion, hp] at hpv
  · intro e he
    obtain ⟨qre, qost, h1, -, -⟩ := gvfp_error_decomp p e he
    refine ⟨.normal none, ?_, rfl⟩
    rw [h1]
    exact List.mem_append_right _ (List.mem_cons_self _ _)

/-- C7, witness: a path of ordinary directory names yields `Ok(None)`. -/
theorem c7_no_version_ok_witness : getVersionFromPath noVersionPath = .ok none :=
  (c7_no_version_ok noVersionPath).1 (by decide) (by decide)

/-! ## Claim C10 -/

/-- C10: `get_version_from_path` stops at the first version-parsing
component — whatever follows it, including a non-UTF-8 component, the
version is returned successfully — and an error arises exactly at a
non-UTF-8 `Normal` component all of whose predecessors are skippable
(so in particular before any version-parsing component). -/
theorem c10_stops_at_first_version :
    (∀ (qre : List Component) (s : String) (v : SemVer) (qost : List Component),
        (∀ c ∈ qre, skippable c = true) → SemVer.parse s = some v →
        getVersionFromPath (qre ++ .normal (some s) :: qost) = .ok (some v))
    ∧ (∀ (p : FsPath) (e : Diag), getVersionFromPath p = .error e →
        ∃ qre qost, p = qre ++ Component.normal none :: qost
          ∧ ∀ c ∈ qre, skippable c = true) := by
  constructor
  · exact fun qre s v qost hs hp => gvfp_first_version qre s v qost hs hp
  · intro p e he
    obtain ⟨qre, qost, h1, h2, -⟩ := gvfp_error_decomp p e he
    exact ⟨qre, qost, h1, h2⟩

/-- C10, witness: a non-UTF-8 component after the version component does
not cause a failure. -/
theorem c10_stops_at_first_version_witness :
    getVersionFromPath ([.normal (some "frag")] ++ .normal (some "1.0.0") :: [.normal none])
      = .ok (some ⟨1, 0, 0, [], []⟩) :=
  c10_stops_at_first_version.1 [.normal (some "frag")] "1.0.0" ⟨1, 0, 0, [], []⟩
    [.normal none] (by decide) (by decide)

/-! ## Claim C2 -/

/-- C2, counterexample: in the release flow, the fragment at
`frag/1.0.0/bad.md` fails to decode and the surfaced diagnostic is the bare
`FragmentError` report, which carries no filesystem path — refuting the
claim that every decode-related failure in either flow carries the
offending fragment's path. -/
theorem c2_counterexample :
    loadReleaseFiles badFragFs sampleConfig badFragItems
      = [.error (.fragment .headerSeperatorMissing)]
    ∧ Diag.pathOf (.fragment .headerSeperatorMissing) = none
    ∧ isDecodeDiag (.fragment .headerSeperatorMissing) = true := by decide

/-- C2, amended: in the verification flow every decode failure is recorded
as `FragmentParsing` carrying exactly the path of the file that produced
it, but in the release flow every open-or-decode failure is surfaced as a
diagnostic that carries no filesystem path (`Error::Io` from the open, or
the bare `from_reader` report). -/
theorem c2_paths_amended :
    (∀ (fs : FileSys) (rde : Except WalkErr DirEntry) (d : Diag),
        loadOne fs rde = some (.error d) → isDecodeDiag d = true →
        Diag.pathOf d = none)
    ∧ (∀ (fs : FileSys) (rde : Except WalkErr DirEntry) (p : FsPath) (fe : FragmentError),
        verifyOne fs rde = some (.fragmentParsing p fe) →
        ∃ de, rde = .ok de ∧ p = de.path) :=
  ⟨loadOne_decode_diag_no_path, verifyOne_fragmentParsing_path⟩

/-- C2, witness for the amended theorem: an open failure in the release
flow carries no path; the verifier's record for the undecodable fragment
carries its path. -/
theorem c2_paths_amended_witness :
    Diag.pathOf (.err .io) = none
    ∧ ∃ de, (.ok ⟨badFragPath, .file⟩ : Except WalkErr DirEntry) = .ok de
        ∧ badFragPath = de.path :=
  ⟨c2_paths_amended.1 [] (.ok ⟨badFragPath, .file⟩) (.err .io) (by decide) (by decide),
   c2_paths_amended.2 badFragFs (.ok ⟨badFragPath, .file⟩) badFragPath
     .headerSeperatorMissing (by decide)⟩

/-! ## Claim C3 -/

/-- C3: in the release flow, a candidate file with no extractable version
contributes nothing — no error and no bucket entry — and the first error in
the loaded sequence (in particular the first open-or-decode failure of a
versioned file) aborts the whole aggregation, which returns exactly that
first error and no result. -/
theorem c3_release_fail_fast :
    (∀ (fs : FileSys) (cfg : Configuration) (de : DirEntry)
        (l₁ l₂ : List (Except WalkErr DirEntry)),
        de.fileType = .file → endsWithTemplateMd de.path = false →
        getVersionFromPath de.path = .ok none →
        loadReleaseFiles fs cfg (l₁ ++ .ok de :: l₂) = loadReleaseFiles fs cfg (l₁ ++ l₂))
    ∧ (∀ (rs₁ : List (Except Diag (SemVer × Fragment))) (e : Diag)
        (rs₂ : List (Except Diag (SemVer × Fragment))),
        (∀ r ∈ rs₁, ∃ q, r = .ok q) →
        computeTemplateData (rs₁ ++ .error e :: rs₂) = .error e) := by
  constructor
  · intro fs cfg de l₁ l₂ hf ht hv
    have hone : loadReleaseFiles fs cfg (.ok de :: l₂) = loadReleaseFiles fs cfg l₂ := by
      unfold loadReleaseFiles
      rw [candidateFilter_cons_file cfg de hf ht l₂, List.filterMap_cons,
        loadOne_noVersion fs de hv]
    rw [loadReleaseFiles_append, loadReleaseFiles_append, hone]
  · intro rs₁ e rs₂ h
    unfold computeTemplateData
    rw [buildVersionMap_first_error rs₁ e rs₂ [] h]

/-- C3, witness: a version-less file contributes nothing, and an
aggregation whose input holds a good pair, then a decode error, then a
further error, returns exactly the first error. -/
theorem c3_release_fail_fast_witness :
    (loadReleaseFiles badFragFs sampleConfig ([] ++ .ok ⟨noVersionPath, .file⟩ :: [])
      = loadReleaseFiles badFragFs sampleConfig ([] ++ []))
    ∧ computeTemplateData ([.ok (⟨0, 1, 0, [], []⟩, fragIssue345)] ++
        .error (.fragment .headerSeperatorMissing) :: [.error (.err .io)])
      = .error (.fragment .headerSeperatorMissing) :=
  ⟨c3_release_fail_fast.1 badFragFs sampleConfig ⟨noVersionPath, .file⟩ [] []
      (by decide) (by decide) (by decide),
   c3_release_fail_fast.2 [.ok (⟨0, 1, 0, [], []⟩, fragIssue345)]
      (.fragment .headerSeperatorMissing) [.error (.err .io)]
      (fun r hr => ⟨(⟨0, 1, 0, [], []⟩, fragIssue345), List.mem_singleton.mp hr⟩)⟩

/-! ## Claim C5 -/

/-- C5: a regular file whose final component is the template filename is
removed from both flows — the release flow's loaded sequence, hence every
version bucket and the whole template data, and the verifier's failure
collection are as if the file were absent, whatever its content — while
every other regular file remains a candidate. -/
theorem c5_template_excluded :
    (∀ (fs : FileSys) (cfg : Configuration) (de : DirEntry)
        (l₁ l₂ : List (Except WalkErr DirEntry)),
        de.fileType = .file → endsWithTemplateMd de.path = true →
        loadReleaseFiles fs cfg (l₁ ++ .ok de :: l₂) = loadReleaseFiles fs cfg (l₁ ++ l₂)
        ∧ computeTemplateData (loadReleaseFiles fs cfg (l₁ ++ .ok de :: l₂))
            = computeTemplateData (loadReleaseFiles fs cfg (l₁ ++ l₂))
        ∧ verifyFailures fs cfg (l₁ ++ .ok de :: l₂) = verifyFailures fs cfg (l₁ ++ l₂))
    ∧ (∀ (cfg : Configuration) (de : DirEntry)
        (l₁ l₂ : List (Except WalkErr DirEntry)),
        de.fileType = .file → endsWithTemplateMd de.path = false →
        .ok de ∈ candidateFilter cfg (l₁ ++ .ok de :: l₂)) := by
  constructor
  · intro fs cfg de l₁ l₂ hf ht
    have hcf : candidateFilter cfg (l₁ ++ .ok de :: l₂) = candidateFilter cfg (l₁ ++ l₂) := by
      rw [candidateFilter_append, candidateFilter_cons_template cfg de hf ht,
        candidateFilter_append]
    have hload : loadReleaseFiles fs cfg (l₁ ++ .ok de :: l₂)
        = loadReleaseFiles fs cfg (l₁ ++ l₂) := by
      unfold loadReleaseFiles
      rw [hcf]
    refine ⟨hload, by rw [hload], ?_⟩
    unfold verifyFailures
    rw [hcf]
  · intro cfg de l₁ l₂ hf ht
    rw [candidateFilter_append, candidateFilter_cons_file cfg de hf ht]
    exact List.mem_append_right _ (List.mem_cons_self _ _)

/-- C5, witness: a valid-content file named `template.md` inside a version
directory changes neither flow, and the ordinary fragment file stays a
candidate. -/
theorem c5_template_excluded_witness :
    (loadReleaseFiles versionedTemplateFs sampleConfig
          ([] ++ .ok ⟨versionedTemplatePath, .file⟩ :: [])
        = loadReleaseFiles versionedTemplateFs sampleConfig ([] ++ [])
      ∧ computeTemplateData (loadReleaseFiles versionedTemplateFs sampleConfig
          ([] ++ .ok ⟨versionedTemplatePath, .file⟩ :: []))
        = computeTemplateData (loadReleaseFiles versionedTemplateFs sampleConfig ([] ++ []))
      ∧ verifyFailures versionedTemplateFs sampleConfig
          ([] ++ .ok ⟨versionedTemplatePath, .file⟩ :: [])
        = verifyFailures versionedTemplateFs sampleConfig ([] ++ []))
    ∧ .ok ⟨badFragPath, .file⟩ ∈ candidateFilter sampleConfig
        ([] ++ .ok ⟨badFragPath, .file⟩ :: []) :=
  ⟨c5_template_excluded.1 versionedTemplateFs sampleConfig ⟨versionedTemplatePath, .file⟩
      [] [] (by decide) (by decide),
   c5_template_excluded.2 sampleConfig ⟨badFragPath, .file⟩ [] [] (by decide) (by decide)⟩

/-! ## Claim C9 -/

/-- C9: the release flow's exclusion filter matches the literal final
component `template.md` for every configuration — such a file is dropped
from the candidate set regardless of the configured template path, so a
valid fragment named `template.md` inside a version directory is silently
omitted from every bucket even under a configuration whose template path is
a different name — while a file under any other name (such as the
configured template) stays a candidate. -/
theorem c9_literal_template_filter :
    (∀ (cfg : Configuration) (de : DirEntry) (l₁ l₂ : List (Except WalkErr DirEntry)),
        de.fileType = .file → endsWithTemplateMd de.path = true →
        candidateFilter cfg (l₁ ++ .ok de :: l₂) = candidateFilter cfg (l₁ ++ l₂))
    ∧ (∀ (cfg : Configuration) (de : DirEntry) (l₁ l₂ : List (Except WalkErr DirEntry)),
        de.fileType = .file → endsWithTemplateMd de.path = false →
        .ok de ∈ candidateFilter cfg (l₁ ++ .ok de :: l₂))
    ∧ (loadReleaseFiles versionedTemplateFs altConfig versionedTemplateItems = []
        ∧ Fragment.fromReader goodContent = .ok ⟨[("issue", .int 123)], "\nbody text"⟩
        ∧ getVersionFromPath versionedTemplatePath = .ok (some ⟨1, 0, 0, [], []⟩)
        ∧ altConfig.templatePath ≠ [Component.normal (some "template.md")]) := by
  refine ⟨?_, ?_, by decide⟩
  · intro cfg de l₁ l₂ hf ht
    rw [candidateFilter_append, candidateFilter_cons_template cfg de hf ht,
      candidateFilter_append]
  · intro cfg de l₁ l₂ hf ht
    rw [candidateFilter_append, candidateFilter_cons_file cfg de hf ht]
    exact List.mem_append_right _ (List.mem_cons_self _ _)

/-- C9, witness: under the default configuration, the dropped `template.md`
entry and the retained ordinary entry. -/
theorem c9_literal_template_filter_witness :
    candidateFilter sampleConfig ([] ++ .ok ⟨versionedTemplatePath, .file⟩ :: [])
      = candidateFilter sampleConfig ([] ++ [])
    ∧ .ok ⟨badFragPath, .file⟩ ∈ candidateFilter altConfig
        ([] ++ .ok ⟨badFragPath, .file⟩ :: []) :=
  ⟨c9_literal_template_filter.1 sampleConfig ⟨versionedTemplatePath, .file⟩ [] []
      (by decide) (by decide),
   c9_literal_template_filter.2.1 altConfig ⟨badFragPath, .file⟩ [] []
      (by decide) (by decide)⟩

/-! ## Claim C4 -/

/-- C4: the verifier never aborts — its failure collection distributes over
the walk sequence, it succeeds exactly when no candidate fails, any error
it returns is the single aggregate `Verification` error carrying exactly
the full ordered failure collection, and every failing candidate's entry is
in that collection (none swallowed). -/
theorem c4_verifier_accumulates (fs : FileSys) (cfg : Configuration)
    (items : List (Except WalkErr DirEntry)) :
    (verifyMetadata fs cfg items = .ok () ↔
      ∀ rde ∈ candidateFilter cfg items, verifyOne fs rde = none)
    ∧ (∀ errs, verifyMetadata fs cfg items = .error errs →
        errs = .verification (verifyFailures fs cfg items)
        ∧ verifyFailures fs cfg items ≠ [])
    ∧ (∀ l₁ l₂, verifyFailures fs cfg (l₁ ++ l₂)
        = verifyFailures fs cfg l₁ ++ verifyFailures fs cfg l₂)
    ∧ (∀ rde e, rde ∈ candidateFilter cfg items → verifyOne fs rde = some e →
        e ∈ verifyFailures fs cfg items) := by
  have hiff : verifyFailures fs cfg items = [] ↔
      ∀ rde ∈ candidateFilter cfg items, verifyOne fs rde = none := by
    unfold verifyFailures
    exact List.filterMap_eq_nil_iff
  refine ⟨?_, ?_, verifyFailures_append fs cfg, ?_⟩
  · constructor
    · intro h
      apply hiff.mp
      unfold verifyMetadata at h
      cases hvf : verifyFailures fs cfg items with
      | nil => rfl
      | cons a l => rw [hvf] at h; simp at h
    · intro h
      unfold verifyMetadata
      rw [hiff.mpr h]
  · intro errs h
    unfold verifyMetadata at h
    cases hvf : verifyFailures fs cfg items with
    | nil => rw [hvf] at h; simp at h
    | cons a l =>
      rw [hvf] at h
      simp only [Except.error.injEq] at h
      subst h
      exact ⟨rfl, by simp⟩
  · intro rde e hmem hsome
    unfold verifyFailures
    exact List.mem_filterMap.mpr ⟨rde, hmem, hsome⟩

/-- C4, witness: the tree with one undecodable fragment produces the
aggregate error carrying its single failure. -/
theorem c4_verifier_accumulates_witness :
    (Error.verification
        [VerificationError.fragmentParsing badFragPath .headerSeperatorMissing])
      = .verification (verifyFailures badFragFs sampleConfig badFragItems)
    ∧ verifyFailures badFragFs sampleConfig badFragItems ≠ [] :=
  (c4_verifier_accumulates badFragFs sampleConfig badFragItems).2.1
    (.verification [.fragmentParsing badFragPath .headerSeperatorMissing]) (by decide)

end CargoChangelog
